import Mathlib

/-!
Verification of the block-tree terms dictionary reader
(src/core/codec/blocktree/blocktree_reader.rs) against its specification.

Terms are byte strings, embedded as lists of naturals; machine integers of the
source (i32, i64, usize) are embedded as Int or Nat, with the comparisons of the
source carried over verbatim.  The frame type `SegmentTermsIterFrame`
(term_iter_frame.rs) is not part of the sources under verification; where a
result depends on it, the frame-local contract is modelled from the spec and
marked `Modelled from the spec:` in its doc comment.
-/

namespace BlockTree

/-! ## Byte strings and the lexicographic order of Rust byte-slice comparison -/

abbrev Bytes := List Nat

/-- Comparison of two naturals, as Rust `Ord::cmp` on unsigned integers. -/
def cmpNat (a b : Nat) : Ordering :=
  if a < b then .lt else if b < a then .gt else .eq

/-- Lexicographic strict order on byte strings, as Rust `[u8]::cmp`:
compare byte by byte, a proper prefix sorts before its extensions. -/
def bytesLt : Bytes → Bytes → Bool
  | [], [] => false
  | [], _ :: _ => true
  | _ :: _, [] => false
  | a :: as, b :: bs => if a < b then true else if b < a then false else bytesLt as bs

/-- Error kinds surfaced by the reader (error crate: CorruptIndex, IllegalState,
UnsupportedOperation). -/
inductive BErr
  | corruptIndex (msg : String)
  | illegalState (msg : String)
  | unsupportedOperation (msg : String)
deriving DecidableEq

/-- Result of `seek_ceil` (core::index::SeekStatus in the source). -/
inductive SeekStatus
  | Found
  | NotFound
  | End
deriving DecidableEq

/-- Outcome of calling a fallible method of the source: an Ok value, an Err of
the error crate, or a Rust panic (reached `unwrap()` on `None` or a panicking
macro). -/
inductive OpResult (α : Type)
  | ok (a : α)
  | err (e : BErr)
  | panicked
deriving DecidableEq

/-- Whether an outcome is an error return (as opposed to Ok or a panic). -/
def OpResult.isErr {α : Type} : OpResult α → Bool
  | .err _ => true
  | _ => false

/-! ## C6: any_auto_prefix_terms at open (src 152-170, `BlockTreeTermsReader::new`)

The source computes the flag from the file version already validated to lie in
[VERSION_START = 0, VERSION_CURRENT = 3]:
version < 1 or version >= 3 forces false; version == 1 forces true; otherwise
(version 2) one marker byte is read from the terms file and mapped 0/1, any
other value raising CorruptIndex.  The result below also carries how many
marker bytes were consumed from the terms file. -/

def anyAutoPrefixTermsOf (version : Int) (marker : Nat) : Except BErr (Bool × Nat) :=
  if version < 1 ∨ 3 ≤ version then .ok (false, 0)
  else if version = 1 then .ok (true, 0)
  else
    match marker with
    | 0 => .ok (false, 1)
    | 1 => .ok (true, 1)
    | b =>
      .error (.corruptIndex
        ("invalid any_auto_prefix_terms: expected 0 or 1 but got " ++ toString b))

/-! ## C7: per-field directory entry validation (src 218-283, `BlockTreeTermsReader::new`)

One iteration of the field loop, abstracted over the values decoded from the
terms file and over the lookup results the loop consults.  The checks appear in
the order of the source. -/

structure FieldEntry where
  numTerms : Int
  rootCodeLen : Int
  fieldInfoKnown : Bool
  indexOptionsDocsOnly : Bool
  sumTotalTermFreqRead : Int
  sumDocFreq : Int
  docCount : Int
  longsSize : Int
  maxDoc : Int
  duplicateName : Bool
deriving DecidableEq

/-- Sum of total term frequencies actually used: the source substitutes -1 when
the field indexes only documents (src 241-244). -/
def effectiveSumTotalTermFreq (e : FieldEntry) : Int :=
  if e.indexOptionsDocsOnly then -1 else e.sumTotalTermFreqRead

def parseFieldEntry (e : FieldEntry) : Except BErr Unit :=
  if e.numTerms ≤ 0 then
    .error (.corruptIndex "Illegal num_terms for field number")
  else if e.rootCodeLen < 0 then
    .error (.corruptIndex "invalid root_code for field number")
  else if e.fieldInfoKnown = false then
    .error (.corruptIndex "invalid field number")
  else if e.longsSize < 0 then
    .error (.corruptIndex "invalid longs_size for field")
  else if e.docCount < 0 ∨ e.maxDoc < e.docCount then
    .error (.corruptIndex "invalid doc_count")
  else if e.sumDocFreq < e.docCount then
    .error (.corruptIndex "invalid sum_doc_freq")
  else if effectiveSumTotalTermFreq e ≠ -1 ∧ effectiveSumTotalTermFreq e < e.sumDocFreq then
    .error (.corruptIndex "invalid sum_total_term_freq")
  else if e.duplicateName then
    .error (.corruptIndex "duplicated field")
  else
    .ok ()

/-! ## C9: seeking without a loaded terms index

seek_ceil (src 1550-1553) checks `self.field_reader().index.is_none()` and
bails with IllegalState.  seek_exact has no such check: on a fresh iterator it
reaches `self.field_reader().index.as_ref().unwrap()` (src 1459), which panics
when the index is None. -/

def seek_ceil_entry (indexLoaded : Bool) : OpResult Unit :=
  if indexLoaded = false then .err (.illegalState "terms index was not loaded")
  else .ok ()

def seek_exact_entry (indexLoaded : Bool) : OpResult Unit :=
  if indexLoaded then .ok () else .panicked

/-! ## C10: ordinal operations

`seek_exact_ord` (src 1750-1752) is `unimplemented!()`, a panicking macro;
`ord` (src 1773-1775) returns Err(UnsupportedOperation("")). -/

def seek_exact_ord (_ord : Int) : OpResult Unit := .panicked

def ord_call : OpResult Int := .err (.unsupportedOperation "")

/-! ## C3: stats collector term accounting

`Stats::term` (src 789-791) adds the term length to total_term_bytes and
modifies nothing else; in particular it never touches total_term_count, which
no code of the walk increments (`start_block` src 675-692 and `end_block`
src 694-717 touch only the block counters and byte totals). -/

structure Stats where
  total_term_count : Int
  total_term_bytes : Int
deriving DecidableEq

def Stats.new : Stats := { total_term_count := 0, total_term_bytes := 0 }

def Stats.term (s : Stats) (t : Bytes) : Stats :=
  { s with total_term_bytes := s.total_term_bytes + t.length }

/-- The depth-first walk of `compute_block_stats` (src 1114-1148) calls
`stats.term(self.term())` exactly once per term entry it visits; this folds
that per-term emission over the terms of the field in visit order. -/
def compute_block_stats_terms (terms : List Bytes) : Stats :=
  terms.foldl Stats.term Stats.new

/-! ## C8: seek_dir (src 331-337, `BlockTreeTermsReader::seek_dir`)

An IndexInput is modelled as its byte contents plus a cursor.  read_long and
footer_length are consumed contracts of external crates, modelled from the
spec (all fixed-width integers are big-endian; the codec footer is 16 bytes). -/

structure InputState where
  bytes : List Nat
  pos : Nat
deriving DecidableEq

/-- Modelled from the spec: `codec_util::footer_length()` (codec_util is an
external collaborator); the codec footer is the 16 bytes
magic(4) + algorithm id(4) + checksum(8). -/
def footer_length : Nat := 16

/-- Big-endian interpretation of a byte list as an unsigned integer. -/
def beUint (l : List Nat) : Nat :=
  l.foldl (fun acc b => acc * 256 + b) 0

/-- Modelled from the spec: `IndexInput::read_long` (the input abstraction is
an external collaborator) reads 8 bytes at the cursor as a big-endian i64 and
advances the cursor. -/
def read_long (s : InputState) : Option (Int × InputState) :=
  if s.pos + 8 ≤ s.bytes.length then
    let raw := beUint ((s.bytes.drop s.pos).take 8)
    let v : Int := if raw < 2 ^ 63 then (raw : Int) else (raw : Int) - 2 ^ 64
    some (v, { s with pos := s.pos + 8 })
  else none

/-- Modelled from the spec: `IndexInput::seek` to an absolute offset; a
negative offset is an input-layer error. -/
def seekTo (s : InputState) (offset : Int) : Option InputState :=
  if 0 ≤ offset then some { s with pos := offset.toNat } else none

/-- `seek_dir` (src 331-337): ignores the passed dir_offset, seeks to
len - footer_length - 8, reads the stored big-endian directory offset, and
seeks the input there. -/
def seek_dir (s : InputState) (_dir_offset : Int) : Option InputState :=
  match seekTo s ((s.bytes.length : Int) - (footer_length : Int) - 8) with
  | none => none
  | some s1 =>
    match read_long s1 with
    | none => none
    | some (dirOffset, s2) => seekTo s2 dirOffset

/-! ## C1: seek_ceil over a single-block field

The frame type lives in term_iter_frame.rs, which is not among the sources
under verification, so the frame-local scan is modelled from the spec; the
seek_ceil tail around it (src 1704-1724 and 1728-1747) and the next() pop at
an exhausted root frame (src 1308-1321) are taken from the source.  The model
covers a field whose FST has no arcs past the root, so the root frame holds
every term of the field in ascending order. -/

/-- Result of the frame-local scan. -/
inductive ScanRes
  | found (e : Bytes)
  | notFound (e : Bytes)
  | scanEnd
deriving DecidableEq

/-- Modelled from the spec: `SegmentTermsIterFrame::scan_to_term(target,
exact=false)` (term_iter_frame.rs, not under src) iterates the entries of the
current frame in order, returning Found on an entry equal to target, NotFound
landing on the first entry strictly greater than target, and End when every
entry is less than target. -/
def scan_to_term (entries : List Bytes) (target : Bytes) : ScanRes :=
  match entries with
  | [] => .scanEnd
  | e :: rest =>
    if e = target then .found e
    else if bytesLt target e then .notFound e
    else scan_to_term rest target

/-- Term buffer and term_exists flag of the iterator. -/
structure CeilState where
  term : Bytes
  termExists : Bool
deriving DecidableEq

/-- `next()` invoked when the deepest frame is the root frame and it is
exhausted (src 1308-1321): the pop loop reaches ord 0 with next_ent equal to
ent_count and is_last_in_floor, sets EOF, clears the term, resets term_exists
and returns None. -/
def next_root_exhausted (_s : CeilState) : Option Bytes × CeilState :=
  (none, { term := [], termExists := false })

/-- The seek_ceil tail on a frame-local End (src 1735-1744, same shape at
src 1712-1721): resize the term buffer to the target and copy the target into
it, clear term_exists, then call next(); a Some result yields NotFound, a None
result yields End.  `nextCall` abstracts next(), which re-enters the frame
stack. -/
def seek_ceil_after_scan_end (target : Bytes)
    (nextCall : CeilState → Option Bytes × CeilState) : SeekStatus × CeilState :=
  match nextCall { term := target, termExists := false } with
  | (some _, s2) => (.NotFound, s2)
  | (none, s2) => (.End, s2)

/-- seek_ceil on a single-block field: the FST descent (src 1673-1726) misses
immediately (or target is empty and the loop is skipped), the root frame is
loaded and scanned (src 1728-1733), and the End tail runs with next() finding
the root frame exhausted.  On Found and NotFound the frame scan positions the
iterator on the landed entry. -/
def seek_ceil_root (entries : List Bytes) (target : Bytes) : SeekStatus × CeilState :=
  match scan_to_term entries target with
  | .found e => (.Found, { term := e, termExists := true })
  | .notFound e => (.NotFound, { term := e, termExists := true })
  | .scanEnd => seek_ceil_after_scan_end target next_root_exhausted

/-! ## C2 and C5: the common-prefix preamble of seek_exact and seek_ceil

Embeds src 1374-1456 (seek_exact) and src 1567-1647 (seek_ceil) for an
iterator that has already seeked (current_frame_ord differs from the static
frame ordinal).  The FST arcs cached along the spine enter only through their
is_final flags, which drive last_frame_idx. -/

structure IterState where
  term : Bytes
  validIndexPfx : Nat
  arcsFinal : List Bool
  currentFrameOrd : Int
  targetBeforeCurrentLength : Int
  termExists : Bool
deriving DecidableEq

/-- First compare loop (src 1395-1409 / 1588-1602): walk the bytes shared with
the valid index prefix, counting the final arcs passed; fuel is target_limit
minus the running index.  Returns (target_upto, last_frame_idx, cmp). -/
def cmpLoop1 (term target : Bytes) (arcsFinal : List Bool) :
    Nat → Nat → Nat → Nat × Nat × Ordering
  | 0, i, lfi => (i, lfi, .eq)
  | fuel + 1, i, lfi =>
    let c := cmpNat (term.getD i 0) (target.getD i 0)
    if c = .eq then
      cmpLoop1 term target arcsFinal fuel (i + 1)
        (lfi + if arcsFinal.getD (i + 1) false then 1 else 0)
    else (i, lfi, c)

/-- Second compare loop (src 1419-1425 / 1610-1616): extend the comparison
without saving arc or frame state. -/
def cmpLoop2 (term target : Bytes) : Nat → Nat → Ordering
  | 0, _ => .eq
  | fuel + 1, i =>
    let c := cmpNat (term.getD i 0) (target.getD i 0)
    if c = .eq then cmpLoop2 term target fuel (i + 1) else c

/-- The comparison outcome of the preamble: last_frame_idx together with the
final cmp after both loops and the length comparison (src 1411-1431 /
1604-1622). -/
def preambleCmp (s : IterState) (target : Bytes) : Nat × Ordering :=
  let targetLimit := min target.length s.validIndexPfx
  let r := cmpLoop1 s.term target s.arcsFinal targetLimit 0 0
  let tu := r.1
  let lfi := r.2.1
  let cmp1 := r.2.2
  if cmp1 = .eq then
    let targetLimit2 := min target.length s.term.length
    let cmp2 := cmpLoop2 s.term target (targetLimit2 - tu) tu
    (lfi, if cmp2 = .eq then cmpNat s.term.length target.length else cmp2)
  else (lfi, cmp1)

/-- Outcome of the preamble: the frame ordinal and rewind bookkeeping, whether
the call returned early (Found / true, before any descent, block load or other
input access), and the unchanged observable term state. -/
structure PreOut where
  currentFrameOrd : Int
  targetBeforeCurrentLength : Int
  rewoundFrame : Option Int
  early : Option Bool
  cmp : Ordering
  lastFrameIdx : Nat
  term : Bytes
  termExists : Bool
deriving DecidableEq

/-- The common-prefix preamble for an already-seeked iterator, with `isExact`
selecting seek_exact (src 1374-1456) over seek_ceil (src 1567-1647).  Entry
sets target_before_current_length to the current frame ordinal (src 1373 /
1566).  On Less (src 1434-1439 / 1625-1630) the deepest common frame is reused
as is.  On Greater (src 1440-1448 / 1631-1639) both variants move to
last_frame_idx and rewind it; seek_exact sets target_before_current_length to
last_frame_idx while seek_ceil zeroes it.  On Equal with term_exists the call
returns true / Found at once (src 1449-1455 / 1640-1646). -/
def seekPreambleSeeked (isExact : Bool) (s : IterState) (target : Bytes) : PreOut :=
  let tbcl0 := s.currentFrameOrd
  let lfi := (preambleCmp s target).1
  match (preambleCmp s target).2 with
  | .lt =>
    { currentFrameOrd := (lfi : Int), targetBeforeCurrentLength := tbcl0,
      rewoundFrame := none, early := none, cmp := .lt, lastFrameIdx := lfi,
      term := s.term, termExists := s.termExists }
  | .gt =>
    { currentFrameOrd := (lfi : Int),
      targetBeforeCurrentLength := if isExact then (lfi : Int) else 0,
      rewoundFrame := some (lfi : Int), early := none, cmp := .gt,
      lastFrameIdx := lfi, term := s.term, termExists := s.termExists }
  | .eq =>
    if s.termExists then
      { currentFrameOrd := s.currentFrameOrd, targetBeforeCurrentLength := tbcl0,
        rewoundFrame := none, early := some true, cmp := .eq, lastFrameIdx := lfi,
        term := s.term, termExists := s.termExists }
    else
      { currentFrameOrd := s.currentFrameOrd, targetBeforeCurrentLength := tbcl0,
        rewoundFrame := none, early := none, cmp := .eq, lastFrameIdx := lfi,
        term := s.term, termExists := s.termExists }

/-! ## C4: the FST descent of seek_exact from a fresh iterator

Embeds the descent loop src 1482-1531 together with the post-loop shortcut
src 1533-1547, for a fresh iterator (the fresh-path init src 1457-1478 leaves
target_upto at 0).  `arcAt u` abstracts whether find_target_arc finds an arc
for target[u] from the arc at depth u; `hasTermsAt u` abstracts the has_terms
flag of the current frame after scan_to_floor_frame when the index is
exhausted at depth u, and `hasTermsFull` the same flag when the whole target
was consumed by the index. -/

/-- How the descent ends. `earlyFalse buf` is an Ok(false) return with
term_exists set to false and the term buffer as recorded (src 1518-1523 and
src 1538-1542); the scan constructors mark the hand-off to the frame-local
scan_to_term of term_iter_frame.rs, outside the sources under verification. -/
inductive DescentOut
  | earlyFalse (term : Bytes)
  | scanMiss (targetUpto : Nat)
  | scanFull
deriving DecidableEq

/-- The descent loop; fuel is target length minus the running target_upto.
On a hit the matched byte is written into the buffer and, when the arc is
final, a frame is pushed (frame bookkeeping does not affect the modelled
outcome).  On a miss with no terms, the diverging byte is written and the
buffer truncated behind it. -/
def seekExactDescent (arcAt hasTermsAt : Nat → Bool) (hasTermsFull : Bool)
    (target : Bytes) : Nat → Nat → Bytes → DescentOut
  | 0, u, buf =>
    if hasTermsFull then .scanFull else .earlyFalse (buf.take u)
  | fuel + 1, u, buf =>
    if arcAt u then
      seekExactDescent arcAt hasTermsAt hasTermsFull target fuel (u + 1)
        (buf.set u (target.getD u 0))
    else
      if hasTermsAt u then .scanMiss u
      else .earlyFalse ((buf.set u (target.getD u 0)).take (u + 1))

/-- seek_exact from a fresh iterator: grow the term buffer to the target
length if needed (src 1362-1364), then run the descent from depth 0. -/
def seekExactFresh (arcAt hasTermsAt : Nat → Bool) (hasTermsFull : Bool)
    (target buf0 : Bytes) : DescentOut :=
  let buf := if buf0.length < target.length then
    buf0 ++ List.replicate (target.length - buf0.length) 0 else buf0
  seekExactDescent arcAt hasTermsAt hasTermsFull target target.length 0 buf

end BlockTree

namespace BlockTree

/-! # Theorems -/

/-- C6: on open, any_auto_prefix_terms is determined by the file version: for
version 2 one marker byte is read from the terms file and mapped 0 to false and
1 to true, any other byte value raising CorruptIndex; for version at least 3 it
is forced false, for version 1 forced true, for version 0 forced false, with no
marker byte consumed in those cases. -/
theorem c6_any_auto_prefix_terms :
    (∀ b : Nat, anyAutoPrefixTermsOf 2 b =
      if b = 0 then .ok (false, 1)
      else if b = 1 then .ok (true, 1)
      else .error (.corruptIndex
        ("invalid any_auto_prefix_terms: expected 0 or 1 but got " ++ toString b)))
    ∧ (∀ (v : Int) (b : Nat), 3 ≤ v → anyAutoPrefixTermsOf v b = .ok (false, 0))
    ∧ (∀ b : Nat, anyAutoPrefixTermsOf 1 b = .ok (true, 0))
    ∧ (∀ b : Nat, anyAutoPrefixTermsOf 0 b = .ok (false, 0)) := by
  refine ⟨?_, ?_, ?_, ?_⟩
  · intro b
    match b with
    | 0 => rfl
    | 1 => rfl
    | (n + 2) =>
      have h0 : (n + 2 : Nat) ≠ 0 := by omega
      have h1 : (n + 2 : Nat) ≠ 1 := by omega
      simp only [anyAutoPrefixTermsOf, h0, h1, if_false]
      norm_num
  · intro v b hv
    simp only [anyAutoPrefixTermsOf]
    rw [if_pos (Or.inr hv)]
  · intro b; rfl
  · intro b; rfl

/-- C6 witness: a version 2 file with leading marker byte 1 opens with
any_auto_prefix_terms true, marker 2 fails CorruptIndex, and a version 3 file
consumes no marker and forces false. -/
theorem c6_any_auto_prefix_terms_witness :
    anyAutoPrefixTermsOf 2 1 = .ok (true, 1)
    ∧ anyAutoPrefixTermsOf 2 2 = .error (.corruptIndex
        "invalid any_auto_prefix_terms: expected 0 or 1 but got 2")
    ∧ anyAutoPrefixTermsOf 3 7 = .ok (false, 0) := by
  refine ⟨?_, ?_, c6_any_auto_prefix_terms.2.1 3 7 (by norm_num)⟩
  · rw [c6_any_auto_prefix_terms.1 1]
    norm_num
  · rw [c6_any_auto_prefix_terms.1 2]
    norm_num
    rfl

/-- C7: parsing one per-field directory entry fails with CorruptIndex exactly
when an on-disk invariant is violated (term count nonpositive, negative
root-code length, unknown field number, negative longs_size, doc_count negative
or above max_doc, sum_doc_freq below doc_count, sum_total_term_freq other than
-1 but below sum_doc_freq, or a duplicated field name), and succeeds otherwise;
every failure of the entry parse is a CorruptIndex error. -/
theorem c7_field_entry_invariants :
    ∀ e : FieldEntry,
      (parseFieldEntry e = .ok () ↔
        (0 < e.numTerms ∧ 0 ≤ e.rootCodeLen ∧ e.fieldInfoKnown = true ∧
          0 ≤ e.longsSize ∧ 0 ≤ e.docCount ∧ e.docCount ≤ e.maxDoc ∧
          e.docCount ≤ e.sumDocFreq ∧
          (effectiveSumTotalTermFreq e = -1 ∨ e.sumDocFreq ≤ effectiveSumTotalTermFreq e) ∧
          e.duplicateName = false))
      ∧ (parseFieldEntry e = .ok () ∨
          ∃ m, parseFieldEntry e = .error (.corruptIndex m)) := by
  intro e
  constructor
  · unfold parseFieldEntry
    split_ifs with h1 h2 h3 h4 h5 h6 h7 h8 <;>
      simp_all <;> omega
  · unfold parseFieldEntry
    split_ifs <;> simp

/-- C7 witness: a concrete entry satisfying every invariant parses, and
flipping its doc_count above max_doc makes it fail with CorruptIndex. -/
theorem c7_field_entry_invariants_witness :
    parseFieldEntry
      { numTerms := 5, rootCodeLen := 3, fieldInfoKnown := true,
        indexOptionsDocsOnly := false, sumTotalTermFreqRead := 9, sumDocFreq := 7,
        docCount := 4, longsSize := 2, maxDoc := 10, duplicateName := false } = .ok ()
    ∧ parseFieldEntry
      { numTerms := 5, rootCodeLen := 3, fieldInfoKnown := true,
        indexOptionsDocsOnly := false, sumTotalTermFreqRead := 9, sumDocFreq := 7,
        docCount := 11, longsSize := 2, maxDoc := 10, duplicateName := false } ≠
        .ok () := by
  constructor
  · exact (c7_field_entry_invariants
      { numTerms := 5, rootCodeLen := 3, fieldInfoKnown := true,
        indexOptionsDocsOnly := false, sumTotalTermFreqRead := 9, sumDocFreq := 7,
        docCount := 4, longsSize := 2, maxDoc := 10,
        duplicateName := false }).1.mpr (by decide)
  · intro h
    have := (c7_field_entry_invariants
      { numTerms := 5, rootCodeLen := 3, fieldInfoKnown := true,
        indexOptionsDocsOnly := false, sumTotalTermFreqRead := 9, sumDocFreq := 7,
        docCount := 11, longsSize := 2, maxDoc := 10,
        duplicateName := false }).1.mp h
    revert this
    decide

/-- C9 counterexample: on a fresh iterator whose terms index is not loaded,
seek_exact does not return an IllegalState error; it panics (unwrap on None at
src 1459). -/
theorem c9_counterexample :
    (seek_exact_entry false).isErr = false ∧ seek_exact_entry false = .panicked := by
  exact ⟨rfl, rfl⟩

/-- C9 amended: with the terms index not loaded, seek_ceil returns IllegalState
while seek_exact panics; with the index loaded both proceed. -/
theorem c9_index_not_loaded_amended :
    seek_ceil_entry false = .err (.illegalState "terms index was not loaded")
    ∧ seek_exact_entry false = .panicked
    ∧ seek_ceil_entry true = .ok ()
    ∧ seek_exact_entry true = .ok () := by
  exact ⟨rfl, rfl, rfl, rfl⟩

/-- C10 counterexample: seek_exact_ord at ordinal 0 does not fail with an error
return at all; it panics (unimplemented!() at src 1750-1752). -/
theorem c10_counterexample :
    (seek_exact_ord 0).isErr = false ∧ seek_exact_ord 0 = .panicked := by
  exact ⟨rfl, rfl⟩

/-- C10 amended: for every ordinal argument seek_exact_ord panics via the
unimplemented macro, while the ord accessor fails with an UnsupportedOperation
error; this codec does not index term ordinals. -/
theorem c10_seek_exact_ord_amended :
    (∀ o : Int, seek_exact_ord o = .panicked)
    ∧ ord_call = .err (.unsupportedOperation "") := by
  exact ⟨fun _ => rfl, rfl⟩

/-- C3: the claim says total_term_count equals the iteration count; the code
never increments it.  For a field whose walk visits the single term [97], the
per-term emission runs once (total_term_bytes becomes 1), yet total_term_count
stays 0 while the iteration count is 1. -/
theorem c3_stats_term_count_bug :
    (compute_block_stats_terms [[97]]).total_term_count = 0
    ∧ (compute_block_stats_terms [[97]]).total_term_bytes = 1
    ∧ ([[97]] : List Bytes).length = 1 := by
  refine ⟨rfl, ?_, rfl⟩
  simp [compute_block_stats_terms, Stats.term, Stats.new]

/-- C8: seek_dir ignores its dir_offset parameter entirely; for every input it
seeks to len - footer_length - 8, reads the 8-byte big-endian directory offset
stored there, and leaves the input positioned at that offset. -/
theorem c8_seek_dir_ignores_param :
    (∀ (s : InputState) (d d2 : Int), seek_dir s d = seek_dir s d2)
    ∧ (∀ (s : InputState) (d : Int), 24 ≤ s.bytes.length →
        beUint ((s.bytes.drop (s.bytes.length - 24)).take 8) < 2 ^ 63 →
        seek_dir s d =
          some ⟨s.bytes, beUint ((s.bytes.drop (s.bytes.length - 24)).take 8)⟩) := by
  constructor
  · intro s d d2; rfl
  · intro s d hlen hsmall
    have hoff : (0 : Int) ≤ (s.bytes.length : Int) - (footer_length : Int) - 8 := by
      simp only [footer_length]
      omega
    have htn : ((s.bytes.length : Int) - (footer_length : Int) - 8).toNat
        = s.bytes.length - 24 := by
      simp only [footer_length]
      omega
    have hread : s.bytes.length - 24 + 8 ≤ s.bytes.length := by omega
    simp only [seek_dir, seekTo, if_pos hoff, htn, read_long, if_pos hread,
      if_pos hsmall]
    simp

/-- C8 witness: on a concrete 24-byte input whose stored directory offset is 3,
seek_dir lands at position 3 and gives the same result for the arguments 999
and 0. -/
theorem c8_seek_dir_witness :
    seek_dir ⟨[0, 0, 0, 0, 0, 0, 0, 3,
               0, 0, 0, 0, 0, 0, 0, 0, 0, 0, 0, 0, 0, 0, 0, 0], 0⟩ 999 =
      some ⟨[0, 0, 0, 0, 0, 0, 0, 3,
             0, 0, 0, 0, 0, 0, 0, 0, 0, 0, 0, 0, 0, 0, 0, 0], 3⟩
    ∧ seek_dir ⟨[0, 0, 0, 0, 0, 0, 0, 3,
                 0, 0, 0, 0, 0, 0, 0, 0, 0, 0, 0, 0, 0, 0, 0, 0], 0⟩ 999 =
      seek_dir ⟨[0, 0, 0, 0, 0, 0, 0, 3,
                 0, 0, 0, 0, 0, 0, 0, 0, 0, 0, 0, 0, 0, 0, 0, 0], 0⟩ 0 := by
  constructor
  · have h := c8_seek_dir_ignores_param.2
      ⟨[0, 0, 0, 0, 0, 0, 0, 3,
        0, 0, 0, 0, 0, 0, 0, 0, 0, 0, 0, 0, 0, 0, 0, 0], 0⟩ 999
      (by decide) (by decide)
    rw [h]
    decide
  · exact c8_seek_dir_ignores_param.1 _ 999 0

/-! ## Order lemmas for bytesLt -/

theorem bytesLt_irrefl : ∀ a : Bytes, bytesLt a a = false
  | [] => rfl
  | _ :: xs => by simp [bytesLt, bytesLt_irrefl xs]

theorem bytesLt_nil_right : ∀ a : Bytes, bytesLt a [] = false
  | [] => rfl
  | _ :: _ => rfl

theorem bytesLt_asymm : ∀ a b : Bytes, bytesLt a b = true → bytesLt b a = false
  | [], [] => by simp [bytesLt]
  | [], _ :: _ => by intro _; simp [bytesLt]
  | _ :: _, [] => by simp [bytesLt]
  | a :: as, b :: bs => by
    intro h
    simp only [bytesLt] at h ⊢
    rcases Nat.lt_trichotomy a b with hab | hab | hab
    · simp [hab, Nat.lt_asymm hab]
    · subst hab
      simp only [lt_self_iff_false, if_false] at h ⊢
      exact bytesLt_asymm as bs h
    · simp [hab, Nat.lt_asymm hab] at h

theorem bytesLt_total_eq : ∀ a b : Bytes,
    bytesLt a b = false → bytesLt b a = false → a = b
  | [], [] => by intro _ _; rfl
  | [], _ :: _ => by intro h _; simp [bytesLt] at h
  | _ :: _, [] => by intro _ h; simp [bytesLt] at h
  | a :: as, b :: bs => by
    intro h1 h2
    simp only [bytesLt] at h1 h2
    rcases Nat.lt_trichotomy a b with hab | hab | hab
    · simp [hab] at h1
    · subst hab
      simp only [lt_self_iff_false, if_false] at h1 h2
      rw [bytesLt_total_eq as bs h1 h2]
    · simp [hab] at h2

/-! ## Frame scan lemmas (over the spec-modelled scan_to_term) -/

theorem scan_found_eq : ∀ (entries : List Bytes) (target e : Bytes),
    scan_to_term entries target = .found e → e = target ∧ e ∈ entries
  | [], target, e => by intro h; simp [scan_to_term] at h
  | x :: rest, target, e => by
    intro h
    simp only [scan_to_term] at h
    by_cases hx : x = target
    · rw [if_pos hx] at h
      cases h
      exact ⟨hx, List.mem_cons_self x rest⟩
    · rw [if_neg hx] at h
      by_cases hlt : bytesLt target x = true
      · rw [if_pos hlt] at h; cases h
      · rw [if_neg hlt] at h
        obtain ⟨he, hm⟩ := scan_found_eq rest target e h
        exact ⟨he, List.mem_cons_of_mem x hm⟩

theorem scan_mem_found : ∀ (entries : List Bytes) (target : Bytes),
    entries.Pairwise (fun a b => bytesLt a b = true) → target ∈ entries →
    scan_to_term entries target = .found target
  | [], target => by intro _ h; simp at h
  | x :: rest, target => by
    intro hp hm
    rw [List.pairwise_cons] at hp
    simp only [scan_to_term]
    by_cases hx : x = target
    · rw [if_pos hx, hx]
    · rw [if_neg hx]
      have hmem : target ∈ rest := by
        rcases List.mem_cons.mp hm with h | h
        · exact absurd h.symm hx
        · exact h
      have hxlt : bytesLt x target = true := hp.1 target hmem
      have hfalse : bytesLt target x = false := bytesLt_asymm x target hxlt
      rw [if_neg (by simp [hfalse])]
      exact scan_mem_found rest target hp.2 hmem

theorem scan_end_all_lt : ∀ (entries : List Bytes) (target : Bytes),
    scan_to_term entries target = .scanEnd →
    ∀ u ∈ entries, bytesLt u target = true
  | [], target => by intro _ u hu; simp at hu
  | x :: rest, target => by
    intro h u hu
    simp only [scan_to_term] at h
    by_cases hx : x = target
    · rw [if_pos hx] at h; cases h
    · rw [if_neg hx] at h
      by_cases hlt : bytesLt target x = true
      · rw [if_pos hlt] at h; cases h
      · rw [if_neg hlt] at h
        have hf : bytesLt target x = false := by
          revert hlt; cases bytesLt target x <;> simp
        have hxlt : bytesLt x target = true := by
          by_contra hc
          have hxf : bytesLt x target = false := by
            revert hc; cases bytesLt x target <;> simp
          exact hx (bytesLt_total_eq x target hxf hf)
        rcases List.mem_cons.mp hu with h1 | h1
        · subst h1; exact hxlt
        · exact scan_end_all_lt rest target h u h1

theorem scan_all_lt_end : ∀ (entries : List Bytes) (target : Bytes),
    (∀ u ∈ entries, bytesLt u target = true) →
    scan_to_term entries target = .scanEnd
  | [], _ => by intro _; rfl
  | x :: rest, target => by
    intro hall
    have hx : bytesLt x target = true := hall x (List.mem_cons_self x rest)
    have hne : x ≠ target := by
      intro he; subst he
      rw [bytesLt_irrefl] at hx; cases hx
    simp only [scan_to_term]
    rw [if_neg hne, if_neg (by simp [bytesLt_asymm x target hx])]
    exact scan_all_lt_end rest target (fun u hu => hall u (List.mem_cons_of_mem x hu))

theorem scan_notFound_spec : ∀ (entries : List Bytes) (target e : Bytes),
    entries.Pairwise (fun a b => bytesLt a b = true) →
    scan_to_term entries target = .notFound e →
    e ∈ entries ∧ bytesLt target e = true ∧ target ∉ entries ∧
      ∀ u ∈ entries, bytesLt target u = true → bytesLt u e = false
  | [], target, e => by intro _ h; simp [scan_to_term] at h
  | x :: rest, target, e => by
    intro hp h
    rw [List.pairwise_cons] at hp
    simp only [scan_to_term] at h
    by_cases hx : x = target
    · rw [if_pos hx] at h; cases h
    · rw [if_neg hx] at h
      by_cases hlt : bytesLt target x = true
      · rw [if_pos hlt] at h
        cases h
        refine ⟨List.mem_cons_self x rest, hlt, ?_, ?_⟩
        · intro hm
          rcases List.mem_cons.mp hm with h1 | h1
          · exact hx h1.symm
          · have := hp.1 target h1
            rw [bytesLt_asymm target x hlt] at this; cases this
        · intro u hu _
          rcases List.mem_cons.mp hu with h1 | h1
          · subst h1; exact bytesLt_irrefl u
          · exact bytesLt_asymm x u (hp.1 u h1)
      · rw [if_neg hlt] at h
        have hf : bytesLt target x = false := by
          revert hlt; cases bytesLt target x <;> simp
        obtain ⟨hmem, htlt, hnot, hmin⟩ := scan_notFound_spec rest target e hp.2 h
        refine ⟨List.mem_cons_of_mem x hmem, htlt, ?_, ?_⟩
        · intro hm
          rcases List.mem_cons.mp hm with h1 | h1
          · exact hx h1.symm
          · exact hnot h1
        · intro u hu hgt
          rcases List.mem_cons.mp hu with h1 | h1
          · subst h1
            rw [hf] at hgt; cases hgt
          · exact hmin u h1 hgt

/-- C1 counterexample: the three iff clauses of the claim overlap.  For the
field with terms [1] and [2] and target [1], seek_ceil returns Found, yet the
field does contain a term greater than the target, so the clause that
seek_ceil returns NotFound iff such a term exists is false at this input. -/
theorem c1_seek_ceil_counterexample :
    (seek_ceil_root [[1], [2]] [1]).1 = .Found ∧
    ¬ ((seek_ceil_root [[1], [2]] [1]).1 = .NotFound ↔
        ∃ u ∈ ([[1], [2]] : List Bytes), bytesLt [1] u = true) := by
  decide

/-- C1 amended: for a field whose terms occupy the root block in strictly
ascending order, seek_ceil returns Found iff the field contains the target;
returns NotFound iff the field does not contain the target but contains some
term greater than it, leaving term() equal to the smallest such term; and
returns End iff every term is less than the target.  When the frame-local scan
returns End at the deepest frame, seek_ceil sets the term buffer to the target
with term_exists false and calls next(): a Some result yields NotFound and a
None result yields End. -/
theorem c1_seek_ceil_trichotomy_amended (entries : List Bytes) (target : Bytes)
    (hp : entries.Pairwise (fun a b => bytesLt a b = true)) :
    ((seek_ceil_root entries target).1 = .Found ↔ target ∈ entries)
    ∧ ((seek_ceil_root entries target).1 = .NotFound ↔
        (target ∉ entries ∧ ∃ u ∈ entries, bytesLt target u = true))
    ∧ ((seek_ceil_root entries target).1 = .NotFound →
        ((seek_ceil_root entries target).2.term ∈ entries ∧
          bytesLt target (seek_ceil_root entries target).2.term = true ∧
          ∀ u ∈ entries, bytesLt target u = true →
            bytesLt u (seek_ceil_root entries target).2.term = false))
    ∧ ((seek_ceil_root entries target).1 = .End ↔
        ∀ u ∈ entries, bytesLt u target = true)
    ∧ (∀ (t u : Bytes) (f : CeilState → Option Bytes × CeilState) (s2 : CeilState),
        f { term := t, termExists := false } = (some u, s2) →
        seek_ceil_after_scan_end t f = (.NotFound, s2))
    ∧ (∀ (t : Bytes) (f : CeilState → Option Bytes × CeilState) (s2 : CeilState),
        f { term := t, termExists := false } = (none, s2) →
        seek_ceil_after_scan_end t f = (.End, s2)) := by
  have tail1 : ∀ (t u : Bytes) (f : CeilState → Option Bytes × CeilState)
      (s2 : CeilState), f { term := t, termExists := false } = (some u, s2) →
      seek_ceil_after_scan_end t f = (.NotFound, s2) := by
    intro t u f s2 hf
    simp [seek_ceil_after_scan_end, hf]
  have tail2 : ∀ (t : Bytes) (f : CeilState → Option Bytes × CeilState)
      (s2 : CeilState), f { term := t, termExists := false } = (none, s2) →
      seek_ceil_after_scan_end t f = (.End, s2) := by
    intro t f s2 hf
    simp [seek_ceil_after_scan_end, hf]
  rcases hscan : scan_to_term entries target with e | e | _
  · -- scan found e
    obtain ⟨he, hmem⟩ := scan_found_eq entries target e hscan
    have hmt : target ∈ entries := he ▸ hmem
    have hroot : seek_ceil_root entries target =
        (.Found, { term := e, termExists := true }) := by
      simp [seek_ceil_root, hscan]
    refine ⟨?_, ?_, ?_, ?_, tail1, tail2⟩
    · rw [hroot]
      exact ⟨fun _ => hmt, fun _ => rfl⟩
    · rw [hroot]
      constructor
      · intro h; simp at h
      · intro h; exact absurd hmt h.1
    · rw [hroot]
      intro h; simp at h
    · rw [hroot]
      constructor
      · intro h; simp at h
      · intro h
        have := h target hmt
        rw [bytesLt_irrefl] at this; cases this
  · -- scan landed on the first greater entry
    obtain ⟨hmem, htlt, hnot, hmin⟩ := scan_notFound_spec entries target e hp hscan
    have hroot : seek_ceil_root entries target =
        (.NotFound, { term := e, termExists := true }) := by
      simp [seek_ceil_root, hscan]
    refine ⟨?_, ?_, ?_, ?_, tail1, tail2⟩
    · rw [hroot]
      constructor
      · intro h; simp at h
      · intro hm; exact absurd hm hnot
    · rw [hroot]
      exact ⟨fun _ => ⟨hnot, e, hmem, htlt⟩, fun _ => rfl⟩
    · intro _
      rw [hroot]
      exact ⟨hmem, htlt, hmin⟩
    · rw [hroot]
      constructor
      · intro h; simp at h
      · intro h
        have := h e hmem
        rw [bytesLt_asymm target e htlt] at this; cases this
  · -- scan exhausted the block
    have hall := scan_end_all_lt entries target hscan
    have hroot : seek_ceil_root entries target =
        (.End, { term := [], termExists := false }) := by
      simp [seek_ceil_root, hscan, seek_ceil_after_scan_end, next_root_exhausted]
    refine ⟨?_, ?_, ?_, ?_, tail1, tail2⟩
    · rw [hroot]
      constructor
      · intro h; simp at h
      · intro hm
        have := hall target hm
        rw [bytesLt_irrefl] at this; cases this
    · rw [hroot]
      constructor
      · intro h; simp at h
      · intro h
        obtain ⟨_, u, hu, hgt⟩ := h
        have := hall u hu
        rw [bytesLt_asymm target u hgt] at this; cases this
    · rw [hroot]
      intro h; simp at h
    · rw [hroot]
      exact ⟨fun _ => hall, fun _ => rfl⟩

/-- C1 witness: the amended trichotomy at the concrete sorted field with terms
[1] and [3] and target [2]. -/
theorem c1_seek_ceil_trichotomy_witness :
    ((seek_ceil_root [[1], [3]] [2]).1 = .Found ↔ [2] ∈ ([[1], [3]] : List Bytes))
    ∧ ((seek_ceil_root [[1], [3]] [2]).1 = .NotFound ↔
        ([2] ∉ ([[1], [3]] : List Bytes) ∧
          ∃ u ∈ ([[1], [3]] : List Bytes), bytesLt [2] u = true))
    ∧ ((seek_ceil_root [[1], [3]] [2]).1 = .NotFound →
        ((seek_ceil_root [[1], [3]] [2]).2.term ∈ ([[1], [3]] : List Bytes) ∧
          bytesLt [2] (seek_ceil_root [[1], [3]] [2]).2.term = true ∧
          ∀ u ∈ ([[1], [3]] : List Bytes), bytesLt [2] u = true →
            bytesLt u (seek_ceil_root [[1], [3]] [2]).2.term = false))
    ∧ ((seek_ceil_root [[1], [3]] [2]).1 = .End ↔
        ∀ u ∈ ([[1], [3]] : List Bytes), bytesLt u [2] = true)
    ∧ (∀ (t u : Bytes) (f : CeilState → Option Bytes × CeilState) (s2 : CeilState),
        f { term := t, termExists := false } = (some u, s2) →
        seek_ceil_after_scan_end t f = (.NotFound, s2))
    ∧ (∀ (t : Bytes) (f : CeilState → Option Bytes × CeilState) (s2 : CeilState),
        f { term := t, termExists := false } = (none, s2) →
        seek_ceil_after_scan_end t f = (.End, s2)) :=
  c1_seek_ceil_trichotomy_amended [[1], [3]] [2] (by decide)

/-! ## Loop lemmas for the seek preamble -/

theorem cmpNat_self (a : Nat) : cmpNat a a = .eq := by
  simp [cmpNat]

theorem cmpLoop1_self (t : Bytes) (af : List Bool) :
    ∀ (fuel i lfi : Nat), (cmpLoop1 t t af fuel i lfi).2.2 = Ordering.eq
  | 0, _, _ => rfl
  | fuel + 1, i, lfi => by
    simp only [cmpLoop1, cmpNat_self, if_pos]
    exact cmpLoop1_self t af fuel (i + 1) _

theorem cmpLoop2_self (t : Bytes) : ∀ (fuel i : Nat), cmpLoop2 t t fuel i = Ordering.eq
  | 0, _ => rfl
  | fuel + 1, i => by
    simp only [cmpLoop2, cmpNat_self, if_pos]
    exact cmpLoop2_self t fuel (i + 1)

theorem preambleCmp_self (s : IterState) : (preambleCmp s s.term).2 = Ordering.eq := by
  unfold preambleCmp
  simp [cmpLoop1_self, cmpLoop2_self, cmpNat_self]

/-- C2 counterexample: with current term [5, 9], target [5, 3], a final arc at
depth 1 (so last_frame_idx = 1) and valid index prefix 2, the comparison
yields Greater, yet seek_exact leaves target_before_current_length at 1, not
0 as the claim states for both operations. -/
theorem c2_greater_branch_counterexample :
    (seekPreambleSeeked true
      { term := [5, 9], validIndexPfx := 2, arcsFinal := [false, true, false],
        currentFrameOrd := 1, targetBeforeCurrentLength := 7, termExists := true }
      [5, 3]).cmp = .gt
    ∧ (seekPreambleSeeked true
      { term := [5, 9], validIndexPfx := 2, arcsFinal := [false, true, false],
        currentFrameOrd := 1, targetBeforeCurrentLength := 7, termExists := true }
      [5, 3]).targetBeforeCurrentLength = 1
    ∧ ((1 : Int) ≠ 0) := by
  decide

/-- C2 amended: when the shared preamble comparison yields Greater, both
seek_exact and seek_ceil set current_frame_ord to last_frame_idx and rewind
that frame; seek_ceil zeroes target_before_current_length while seek_exact
sets it to last_frame_idx. -/
theorem c2_greater_branch_amended (s : IterState) (target : Bytes)
    (h : (preambleCmp s target).2 = .gt) :
    (seekPreambleSeeked true s target).currentFrameOrd =
        ((preambleCmp s target).1 : Int)
    ∧ (seekPreambleSeeked true s target).rewoundFrame =
        some ((preambleCmp s target).1 : Int)
    ∧ (seekPreambleSeeked true s target).targetBeforeCurrentLength =
        ((preambleCmp s target).1 : Int)
    ∧ (seekPreambleSeeked false s target).currentFrameOrd =
        ((preambleCmp s target).1 : Int)
    ∧ (seekPreambleSeeked false s target).rewoundFrame =
        some ((preambleCmp s target).1 : Int)
    ∧ (seekPreambleSeeked false s target).targetBeforeCurrentLength = 0 := by
  unfold seekPreambleSeeked
  rw [h]
  simp

/-- C2 witness: the amended Greater-branch behavior at the concrete state with
current term [9, 9], target [9, 3], a final arc at depth 1 and valid index
prefix 2, where last_frame_idx is 1. -/
theorem c2_greater_branch_witness :
    (seekPreambleSeeked true
      { term := [9, 9], validIndexPfx := 2, arcsFinal := [false, true, false],
        currentFrameOrd := 0, targetBeforeCurrentLength := 4, termExists := false }
      [9, 3]).currentFrameOrd = 1
    ∧ (seekPreambleSeeked true
      { term := [9, 9], validIndexPfx := 2, arcsFinal := [false, true, false],
        currentFrameOrd := 0, targetBeforeCurrentLength := 4, termExists := false }
      [9, 3]).rewoundFrame = some 1
    ∧ (seekPreambleSeeked true
      { term := [9, 9], validIndexPfx := 2, arcsFinal := [false, true, false],
        currentFrameOrd := 0, targetBeforeCurrentLength := 4, termExists := false }
      [9, 3]).targetBeforeCurrentLength = 1
    ∧ (seekPreambleSeeked false
      { term := [9, 9], validIndexPfx := 2, arcsFinal := [false, true, false],
        currentFrameOrd := 0, targetBeforeCurrentLength := 4, termExists := false }
      [9, 3]).currentFrameOrd = 1
    ∧ (seekPreambleSeeked false
      { term := [9, 9], validIndexPfx := 2, arcsFinal := [false, true, false],
        currentFrameOrd := 0, targetBeforeCurrentLength := 4, termExists := false }
      [9, 3]).rewoundFrame = some 1
    ∧ (seekPreambleSeeked false
      { term := [9, 9], validIndexPfx := 2, arcsFinal := [false, true, false],
        currentFrameOrd := 0, targetBeforeCurrentLength := 4, termExists := false }
      [9, 3]).targetBeforeCurrentLength = 0 := by
  have h := c2_greater_branch_amended
    { term := [9, 9], validIndexPfx := 2, arcsFinal := [false, true, false],
      currentFrameOrd := 0, targetBeforeCurrentLength := 4, termExists := false }
    [9, 3] (by decide)
  have e : (preambleCmp
    { term := [9, 9], validIndexPfx := 2, arcsFinal := [false, true, false],
      currentFrameOrd := 0, targetBeforeCurrentLength := 4, termExists := false }
    [9, 3]).1 = 1 := by decide
  rw [e] at h
  simpa using h

/-- C5: for an already-seeked iterator whose current term equals the target
and whose term_exists flag is true, the shared preamble of seek_exact and
seek_ceil returns early with true / Found (before any input access, block load
or frame push), rewinds no frame, and leaves the current frame ordinal, term
buffer and term_exists unchanged; hence a second seek_exact on the same term
is equivalent to the first with no observable state drift
(target_before_current_length is reset to the current frame ordinal at entry,
as on every seek). -/
theorem c5_seek_equal_fast_path (isExact : Bool) (s : IterState) (target : Bytes)
    (hterm : s.term = target) (hex : s.termExists = true) :
    seekPreambleSeeked isExact s target =
      { currentFrameOrd := s.currentFrameOrd,
        targetBeforeCurrentLength := s.currentFrameOrd,
        rewoundFrame := none, early := some true, cmp := .eq,
        lastFrameIdx := (preambleCmp s target).1,
        term := s.term, termExists := true } := by
  subst hterm
  unfold seekPreambleSeeked
  rw [preambleCmp_self s]
  simp [hex]

/-- C5 witness: the fast path at a concrete already-seeked state on term [7],
for the seek_exact variant. -/
theorem c5_seek_equal_fast_path_witness :
    seekPreambleSeeked true
      { term := [7], validIndexPfx := 1, arcsFinal := [false, true],
        currentFrameOrd := 0, targetBeforeCurrentLength := -5, termExists := true }
      [7] =
      { currentFrameOrd := 0, targetBeforeCurrentLength := 0,
        rewoundFrame := none, early := some true, cmp := .eq,
        lastFrameIdx := 1, term := [7], termExists := true } := by
  have h := c5_seek_equal_fast_path true
    { term := [7], validIndexPfx := 1, arcsFinal := [false, true],
      currentFrameOrd := 0, targetBeforeCurrentLength := -5, termExists := true }
    [7] rfl rfl
  have e : (preambleCmp
    { term := [7], validIndexPfx := 1, arcsFinal := [false, true],
      currentFrameOrd := 0, targetBeforeCurrentLength := -5, termExists := true }
    [7]).1 = 1 := by decide
  rw [e] at h
  exact h

/-! ## List lemmas for the descent buffer -/

theorem take_set_succ : ∀ (l : Bytes) (u a : Nat), u < l.length →
    (l.set u a).take (u + 1) = l.take u ++ [a]
  | [], u, a => by intro h; simp at h
  | _ :: _, 0, a => by intro _; rfl
  | x :: xs, u + 1, a => by
    intro h
    have h2 : u < xs.length := by
      simpa using Nat.lt_of_succ_lt_succ h
    show x :: (xs.set u a).take (u + 1) = (x :: xs.take u) ++ [a]
    rw [take_set_succ xs u a h2]
    rfl

theorem take_succ_getD : ∀ (l : Bytes) (u : Nat), u < l.length →
    l.take (u + 1) = l.take u ++ [l.getD u 0]
  | [], u => by intro h; simp at h
  | _ :: _, 0 => by intro _; rfl
  | x :: xs, u + 1 => by
    intro h
    have h2 : u < xs.length := by
      simpa using Nat.lt_of_succ_lt_succ h
    show x :: xs.take (u + 1) = (x :: xs.take u) ++ [xs.getD u 0]
    rw [take_succ_getD xs u h2]
    rfl

/-! ## Descent lemmas for C4 -/

theorem seekExactDescent_miss (arcAt hasTermsAt : Nat → Bool) (hf : Bool)
    (target : Bytes) :
    ∀ (fuel u : Nat) (buf : Bytes), fuel = target.length - u →
      target.length ≤ buf.length → buf.take u = target.take u →
      ∀ w, u ≤ w → w < target.length →
        (∀ j, u ≤ j → j < w → arcAt j = true) → arcAt w = false →
        hasTermsAt w = false →
        seekExactDescent arcAt hasTermsAt hf target fuel u buf =
          .earlyFalse (target.take (w + 1))
  | 0, u, buf => by
    intro hfuel _ _ w hw hwlen _ _ _
    omega
  | fuel + 1, u, buf => by
    intro hfuel hblen htake w hw hwlen hpath harc hnt
    have hu : u < target.length := by omega
    rcases Nat.eq_or_lt_of_le hw with heq | hlt
    · subst heq
      simp only [seekExactDescent, harc, if_false, hnt]
      rw [take_set_succ buf u (target.getD u 0) (by omega)]
      rw [htake, ← take_succ_getD target u hwlen]
      simp
    · have harcu : arcAt u = true := hpath u (Nat.le_refl u) hlt
      simp only [seekExactDescent, harcu, if_true]
      have hset : (buf.set u (target.getD u 0)).take (u + 1) = target.take (u + 1) := by
        rw [take_set_succ buf u (target.getD u 0) (by omega)]
        rw [htake, ← take_succ_getD target u hu]
      exact seekExactDescent_miss arcAt hasTermsAt hf target fuel (u + 1)
        (buf.set u (target.getD u 0)) (by omega) (by simpa using hblen) hset
        w hlt hwlen (fun j hj1 hj2 => hpath j (by omega) hj2) harc hnt

theorem seekExactDescent_full (arcAt hasTermsAt : Nat → Bool) (target : Bytes) :
    ∀ (fuel u : Nat) (buf : Bytes), fuel = target.length - u → u ≤ target.length →
      target.length ≤ buf.length → buf.take u = target.take u →
      (∀ j, u ≤ j → j < target.length → arcAt j = true) →
      seekExactDescent arcAt hasTermsAt false target fuel u buf =
        .earlyFalse target
  | 0, u, buf => by
    intro hfuel hu _ htake _
    have : u = target.length := by omega
    subst this
    simp only [seekExactDescent, if_false]
    rw [htake, List.take_length]
    simp
  | fuel + 1, u, buf => by
    intro hfuel hu hblen htake hpath
    have hult : u < target.length := by omega
    have harcu : arcAt u = true := hpath u (Nat.le_refl u) hult
    simp only [seekExactDescent, harcu, if_true]
    have hset : (buf.set u (target.getD u 0)).take (u + 1) = target.take (u + 1) := by
      rw [take_set_succ buf u (target.getD u 0) (by omega)]
      rw [htake, ← take_succ_getD target u hult]
    exact seekExactDescent_full arcAt hasTermsAt target fuel (u + 1)
      (buf.set u (target.getD u 0)) (by omega) (by omega) (by simpa using hblen)
      hset (fun j hj1 hj2 => hpath j (by omega) hj2)

/-- C4: whenever seek_exact returns false through its in-source shortcut paths,
term_exists is false and the term buffer is exactly the prefix of the target
up to and including the first diverging byte.  First conjunct: the FST descent
misses at depth u (the first byte the index cannot follow) and the floor frame
has no terms, so seek_exact sets the term to target[..u+1] and returns false.
Second conjunct: the index consumes the whole target but the landed frame has
no terms, so the term is the whole target.  earlyFalse records the Ok(false)
return with term_exists false. -/
theorem c4_seek_exact_false_buffer (arcAt hasTermsAt : Nat → Bool)
    (hasTermsFull : Bool) (target buf0 : Bytes) (u : Nat) :
    (u < target.length → (∀ j, j < u → arcAt j = true) → arcAt u = false →
      hasTermsAt u = false →
      seekExactFresh arcAt hasTermsAt hasTermsFull target buf0 =
        .earlyFalse (target.take (u + 1)))
    ∧ ((∀ j, j < target.length → arcAt j = true) → hasTermsFull = false →
      seekExactFresh arcAt hasTermsAt hasTermsFull target buf0 =
        .earlyFalse target) := by
  have hpadlen : target.length ≤
      (if buf0.length < target.length then
        buf0 ++ List.replicate (target.length - buf0.length) 0 else buf0).length := by
    split
    · simp only [List.length_append, List.length_replicate]
      omega
    · omega
  constructor
  · intro hu hpath harc hnt
    unfold seekExactFresh
    exact seekExactDescent_miss arcAt hasTermsAt hasTermsFull target
      target.length 0 _ (by omega) hpadlen (by simp) u (Nat.zero_le u) hu
      (fun j _ hj => hpath j hj) harc hnt
  · intro hpath hfull
    subst hfull
    unfold seekExactFresh
    exact seekExactDescent_full arcAt hasTermsAt target target.length 0 _
      (by omega) (Nat.zero_le _) hpadlen (by simp)
      (fun j _ hj => hpath j hj)

/-- C4 witness: with arcs only at depth 0, target [3, 4, 5] misses at depth 1;
with the landed floor frame offering no terms, seek_exact returns false with
the term buffer holding [3, 4], the prefix through the first diverging byte. -/
theorem c4_seek_exact_false_buffer_witness :
    seekExactFresh (fun j => decide (j = 0)) (fun _ => false) true [3, 4, 5] [] =
      .earlyFalse [3, 4] := by
  have h := (c4_seek_exact_false_buffer (fun j => decide (j = 0)) (fun _ => false)
      true [3, 4, 5] [] 1).1 (by norm_num)
      (fun j hj => by
        have : j = 0 := by omega
        subst this
        rfl)
      rfl rfl
  rw [h]
  rfl

end BlockTree
